import Mathlib

/-!
Verification model of the clt recording/replay engine
(`src/rec/src/main.rs`) and its block-expansion compiler / statement
grammar (`src/parser/src/lib.rs`).

Transcript lines are modelled as `List Char` (abbreviated `Chars`).  A
line produced by Rust's `BufRead::lines`/`str::split('\n')` carries no
`'\n'`; larger chunks (read buffers, file elements) may contain `'\n'`.
Rust regexes here are anchored single-line patterns; all call sites in
the source feed them single lines, and the model is faithful on that
domain.  `f32` arithmetic of the source is modelled exactly over `ℚ`
(noted at each place it occurs), and `u128` as `Nat`.
-/

namespace Clt

abbrev Chars := List Char

/-- Whitespace class of the regex `\s` restricted to characters that can occur
inside a single line (no `'\n'`). -/
def isWsChar (c : Char) : Bool :=
  c == ' ' || c == '\t' || c == '\r' || c == '\x0b' || c == '\x0c'

/-- Model of Rust `str::trim`. -/
def trimChars (l : Chars) : Chars :=
  ((l.dropWhile Char.isWhitespace).reverse.dropWhile Char.isWhitespace).reverse

/-- Model of Rust `str::to_lowercase` (ASCII range, which is all the source compares). -/
def toLowerChars (l : Chars) : Chars := l.map Char.toLower

/-- Index of the first occurrence of `needle` in the list, model of Rust `str::find`. -/
def indexOfSub (needle : Chars) : Chars → Option Nat
  | [] => if needle.isEmpty then some 0 else none
  | c :: t => if needle.isPrefixOf (c :: t) then some 0 else (indexOfSub needle t).map (· + 1)

/-- Model of Rust `str::contains`. -/
def containsSub (hay needle : Chars) : Bool :=
  (indexOfSub needle hay).isSome

/-- Decimal digits of a natural number, model of Rust `format!("{}", n)`. -/
def natDigits (n : Nat) : Chars := Nat.toDigits 10 n

/-- Value of a digit string, model of Rust `str::parse` on an all-digit slice. -/
def charsToNat (l : Chars) : Nat :=
  l.foldl (fun a c => a * 10 + (c.toNat - '0'.toNat)) 0

/-- Model of Rust `Vec::join("\n")`. -/
def joinLines (ls : List Chars) : Chars := List.intercalate ['\n'] ls

/-! ## Statement grammar (`src/parser/src/lib.rs`, `Statement`, `parse_statement`,
`get_statement_line`, `check_statement!`) -/

inductive Statement where
  | block
  | input
  | output
  | duration
  | comment
deriving DecidableEq, Repr

/-- The `Display` impl for `Statement`. -/
def statementName : Statement → Chars
  | .block => "block".data
  | .input => "input".data
  | .output => "output".data
  | .duration => "duration".data
  | .comment => "comment".data

/-- The `FromStr` impl for `Statement` (`s.trim().to_lowercase()` matched
against the five fixed names). -/
def statementFromName (name : Chars) : Option Statement :=
  let n := toLowerChars (trimChars name)
  if n = "block".data then some .block
  else if n = "input".data then some .input
  else if n = "output".data then some .output
  else if n = "duration".data then some .duration
  else if n = "comment".data then some .comment
  else none

/-- Character class `[\.a-zA-Z0-9\/\_]` of `STATEMENT_REGEX` (note: no `-`). -/
def isStmtNameChar (c : Char) : Bool :=
  c.isAlpha || c.isDigit || c == '.' || c == '/' || c == '_'

/-- The literal `––– ` opening a statement line (en dashes). -/
def stmtOpen : Chars := "––– ".data

/-- The literal ` –––` closing a statement line. -/
def stmtClose : Chars := " –––".data

/-- Model of `parse_statement`: the explicit prefix/suffix precheck followed by
`STATEMENT_REGEX` = `^––– ([\.a-zA-Z0-9\/\_]+)(?:\s*:\s*(.+))? –––$` and the
`FromStr` conversion of the captured name.  The greedy captures of the regex
are deterministic on a single line: the name capture is the maximal run of
name characters after `––– `, and the optional argument capture is everything
between the first `:` (allowing `\s*` around it) and the final ` –––`. -/
def parse_statement (line : Chars) : Option (Statement × Option Chars) :=
  if stmtOpen.isPrefixOf line && stmtClose.isSuffixOf (trimChars line) then
    let rest := line.drop 4
    let name := rest.takeWhile isStmtNameChar
    let tail := rest.drop name.length
    if name = [] then none
    else
      match statementFromName name with
      | none => none
      | some s =>
        if tail = stmtClose then some (s, none)
        else if stmtClose.isSuffixOf tail then
          let mid := tail.take (tail.length - 4)
          match mid.dropWhile isWsChar with
          | ':' :: afterColon =>
            if afterColon = [] then none
            else
              match afterColon.dropWhile isWsChar with
              | [] =>
                -- `\s*` backtracks one character so that `(.+)` is nonempty
                match afterColon.getLast? with
                | some c => some (s, some [c])
                | none => none
              | arg => some (s, some arg)
          | _ => none
        else none
  else none

/-- Model of `get_statement_line`. -/
def get_statement_line (s : Statement) (arg : Option Chars) : Chars :=
  stmtOpen ++ statementName s ++
    (match arg with
     | some a => ':' :: ' ' :: a
     | none => []) ++ stmtClose

inductive StatementCheck where
  | yes
  | no
  | none
deriving DecidableEq, Repr

/-- Model of the `check_statement!` macro. -/
def check_statement (line : Chars) (s : Statement) : StatementCheck :=
  match parse_statement line with
  | Option.some (s', _) => if s' = s then .yes else .no
  | Option.none => .none

/-! ## Duration records (`parser::Duration`, `parse_duration_line`,
`rec`'s `get_duration_line`).  `Duration.duration` is `u128` (here `Nat`);
`Duration.percentage` is `f32`, modelled exactly as `ℚ`. -/

structure DurationRec where
  ms : Nat
  percentage : ℚ
deriving DecidableEq, Repr

/-- Character class `[0-9\.]` of `DURATION_REGEX`. -/
def isDigitDotChar (c : Char) : Bool :=
  c.isDigit || c == '.'

/-- The literal `––– duration: ` opening a duration line. -/
def durationOpen : Chars := "––– duration: ".data

/-- The literal `%) –––` closing a duration line. -/
def durationClose : Chars := "%) –––".data

/-- The two captures of `DURATION_REGEX` =
`^––– duration: ([0-9\.]+)ms \(([0-9\.]+)%\) –––$`, or `none` when the line
does not match.  Greedy matching is deterministic here because the literal
separators `ms (` and `%)` contain no `[0-9.]` characters. -/
def durationParts (l : Chars) : Option (Chars × Chars) :=
  if durationOpen.isPrefixOf l && durationClose.isSuffixOf (l.drop durationOpen.length) then
    let core := (l.drop durationOpen.length).take (l.length - durationOpen.length - durationClose.length)
    let d := core.takeWhile isDigitDotChar
    let rest := core.drop d.length
    if d ≠ [] && "ms (".data.isPrefixOf rest then
      let p := rest.drop 4
      if p ≠ [] && p.all isDigitDotChar then some (d, p) else none
    else none
  else none

/-- Model of Rust `f32::from_str` on a `[0-9.]+` capture: at most one dot,
and at least one digit overall (`"5."`, `".5"` parse; `"."`, `"1.2.3"` do not).
The parsed value is represented exactly in `ℚ`. -/
def parseDecimalQ (p : Chars) : Option ℚ :=
  let a := p.takeWhile (· ≠ '.')
  match p.drop a.length with
  | [] => if a = [] then none else some (charsToNat a)
  | '.' :: b =>
    if b.any (· == '.') then none
    else if a = [] && b = [] then none
    else some ((charsToNat a : ℚ) + (charsToNat b : ℚ) / (10 : ℚ) ^ b.length)
  | _ => none

/-- Model of `parse_duration_line`: `DURATION_REGEX` capture, then
`u128::from_str` on the duration (which rejects dots) and `f32::from_str`
on the percentage. -/
def parse_duration_line (l : Chars) : Option DurationRec :=
  match durationParts l with
  | none => none
  | some (d, p) =>
    if d.all Char.isDigit then
      match parseDecimalQ p with
      | some q => some ⟨charsToNat d, q⟩
      | none => none
    else none

/-- Round to the nearest integer, ties to even: the rounding used by Rust's
`{:.2}` float formatting, applied here to the exact rational value. -/
def roundHalfEven (x : ℚ) : ℤ :=
  let f := Int.floor x
  let r := x - f
  if r < 1 / 2 then f else if 1 / 2 < r then f + 1 else if f % 2 = 0 then f else f + 1

/-- Two-decimal rendering of a (nonnegative) percentage, model of `{:.2}`. -/
def fmt2 (q : ℚ) : Chars :=
  let m := (roundHalfEven (q * 100)).toNat
  natDigits (m / 100) ++ '.' :: (if m % 100 < 10 then '0' :: natDigits (m % 100) else natDigits (m % 100))

/-- The argument `format!("{}ms ({:.2}%)", ...)` of `rec::get_duration_line`. -/
def duration_arg (d : DurationRec) : Chars :=
  natDigits d.ms ++ "ms (".data ++ fmt2 d.percentage ++ "%)".data

/-- Model of `rec::get_duration_line`. -/
def get_duration_line (d : DurationRec) : Chars :=
  get_statement_line .duration (some (duration_arg d))

/-- The percentage recomputed by `cleanup_file`:
`(duration.duration as f32 / total_duration as f32) * 100.0`, modelled
exactly over `ℚ` (division by zero yields 0 here where `f32` would give
infinity; no settled claim touches `total = 0`). -/
def recomputePct (ms total : Nat) : ℚ :=
  ((ms : ℚ) / (total : ℚ)) * 100

/-! ## Block compiler (`parser::compile`, `compile_recursive`).  The file
system is abstracted into `FSModel`: `canon` models `std::fs::canonicalize`
(`Except IoKind` distinguishes a `NotFound` failure from any other I/O error
kind), and `files` maps canonical paths to their lines. -/

inductive IoKind where
  | notFound
  | otherIo
deriving DecidableEq, Repr

inductive CompileError where
  /-- `anyhow!("Circular dependency detected: {}")` -/
  | circularDependency (path : Chars)
  /-- `File::open` failure with context `Failed to open file: {}` -/
  | openFailed (path : Chars)
  /-- `canonicalize` `NotFound` remapped to `Block file not found at path: {}` -/
  | blockNotFound (path : Chars)
  /-- any other `canonicalize` error kind, passed through unchanged -/
  | ioFailure (path : Chars)
  /-- failure of the top-level `canonicalize` in `compile` -/
  | canonFailed (path : Chars) (k : IoKind)
  /-- `with_context(|| "Failed to compile block: {}")` wrapping a nested error -/
  | blockContext (path : Chars) (inner : CompileError)
deriving DecidableEq, Repr

structure FSModel where
  canon : Chars → Except IoKind Chars
  files : List (Chars × List Chars)

/-- Model of `File::open` + `BufReader::lines` on a canonical path. -/
def lookupFile (fs : FSModel) (p : Chars) : Option (List Chars) :=
  fs.files.lookup p

/-- Model of `Path::parent().unwrap_or("")` on the canonical paths used here. -/
def dirOf (p : Chars) : Chars :=
  match p.reverse.dropWhile (· != '/') with
  | [] => []
  | [c] => [c]
  | _ :: rest => rest.reverse

/-- Model of `Path::join` for the relative block paths used here. -/
def joinPath (dir file : Chars) : Chars :=
  if dir = [] then file
  else if dir.getLast? = some '/' then dir ++ file
  else dir ++ '/' :: file

/-- Character class `[\.a-zA-Z0-9\-\/\_]` of `BLOCK_REGEX` (this one
includes `-`). -/
def isBlockNameChar (c : Char) : Bool :=
  c.isAlpha || c.isDigit || c == '.' || c == '-' || c == '/' || c == '_'

/-- The literal `––– block: ` opening a block line. -/
def blockOpen : Chars := "––– block: ".data

/-- The capture of `BLOCK_REGEX` = `^––– block: ([\.a-zA-Z0-9\-\/\_]+) –––$`,
or `none` when the line does not match.  The capture is deterministic: the
class contains neither the space nor the en dash of the closing literal. -/
def blockLineRef (l : Chars) : Option Chars :=
  if blockOpen.isPrefixOf l && stmtClose.isSuffixOf (l.drop blockOpen.length) then
    let mid := (l.drop blockOpen.length).take (l.length - blockOpen.length - 4)
    if mid ≠ [] && mid.all isBlockNameChar then some mid else none
  else none

/-- `if block_name.ends_with(".recb") { .. } else { format!("{}.recb", ..) }` -/
def withRecbExt (name : Chars) : Chars :=
  if ".recb".data.isSuffixOf name then name else name ++ ".recb".data

/-- Number of known canonical paths not yet on the visited path: the
termination measure of the recursive compiler. -/
def freeCount (fs : FSModel) (visited : List Chars) : Nat :=
  (fs.files.map Prod.fst).countP (fun p => decide (p ∉ visited))

theorem countP_notMem_cons_lt {L : List Chars} {p : Chars} (v : List Chars)
    (hp : p ∈ L) (hnv : p ∉ v) :
    L.countP (fun q => decide (q ∉ p :: v)) < L.countP (fun q => decide (q ∉ v)) := by
  induction L with
  | nil => cases hp
  | cons a t ih =>
    rw [List.countP_cons, List.countP_cons]
    have hle : t.countP (fun q => decide (q ∉ p :: v)) ≤ t.countP (fun q => decide (q ∉ v)) := by
      apply List.countP_mono_left
      intro x _ hx
      simp only [decide_eq_true_eq] at hx ⊢
      exact fun hxv => hx (List.mem_cons_of_mem _ hxv)
    by_cases hap : a = p
    · subst hap
      have e1 : decide (a ∉ a :: v) = false := by simp
      have e2 : decide (a ∉ v) = true := by simpa using hnv
      rw [e1, e2]
      simp only [Bool.false_eq_true, if_false, if_true]
      omega
    · have hpt : p ∈ t := by
        rcases List.mem_cons.mp hp with h | h
        · exact absurd h.symm hap
        · exact h
      have e3 : decide (a ∉ p :: v) = decide (a ∉ v) := by
        simp only [decide_eq_decide, List.mem_cons, not_or]
        constructor
        · exact fun h => h.2
        · exact fun h => ⟨fun he => hap he, h⟩
      rw [e3]
      have hlt := ih hpt
      cases hd : decide (a ∉ v) <;> simp only [hd, Bool.false_eq_true, if_false, if_true] <;> omega

theorem freeCount_cons_lt (fs : FSModel) (p : Chars) (visited : List Chars)
    (hp : p ∈ fs.files.map Prod.fst) (hnv : p ∉ visited) :
    freeCount fs (p :: visited) < freeCount fs visited :=
  countP_notMem_cons_lt visited hp hnv

theorem mem_keys_of_lookup {α : Type} (l : List (Chars × α)) (p : Chars) (v : α)
    (h : l.lookup p = some v) : p ∈ l.map Prod.fst := by
  induction l with
  | nil => simp [List.lookup] at h
  | cons a t ih =>
    simp only [List.lookup] at h
    rw [List.map_cons]
    cases hb : (p == a.1) with
    | true => exact List.mem_cons.mpr (Or.inl (eq_of_beq hb))
    | false =>
      rw [hb] at h
      exact List.mem_cons_of_mem _ (ih h)

mutual

/-- Model of `compile_recursive`: cycle check (`visited.insert` failing),
file open, then line-by-line processing with the callee's visited path being
the caller's path extended by the current file; the source's per-branch
`visited.clone()` and trailing `visited.remove` make the visited set exactly
the path from the root, which is what the explicit `path :: visited`
argument expresses.  The result is `trim`med. -/
def compileRec (fs : FSModel) (path : Chars) (visited : List Chars) :
    Except CompileError Chars :=
  if h : path ∈ visited then .error (.circularDependency path)
  else
    match hlk : lookupFile fs path with
    | none => .error (.openFailed path)
    | some lines =>
      match processLines fs (dirOf path) (path :: visited) lines with
      | .error e => .error e
      | .ok r => .ok (trimChars r)
termination_by (freeCount fs visited, 0)
decreasing_by
  apply Prod.Lex.left
  exact freeCount_cons_lt fs path visited (mem_keys_of_lookup _ _ _ hlk) h

/-- The line loop of `compile_recursive`: a `BLOCK_REGEX` line is replaced by
the trimmed recursively compiled block plus one newline, a `DURATION_REGEX`
line is dropped, and any other line is copied verbatim plus newline. -/
def processLines (fs : FSModel) (dir : Chars) (visited : List Chars)
    (lines : List Chars) : Except CompileError Chars :=
  match lines with
  | [] => .ok []
  | l :: ls =>
    match blockLineRef l with
    | some name =>
      let blockPath := joinPath dir (withRecbExt name)
      match fs.canon blockPath with
      | .error IoKind.notFound => .error (.blockNotFound blockPath)
      | .error IoKind.otherIo => .error (.ioFailure blockPath)
      | .ok abs =>
        match compileRec fs abs visited with
        | .error e => .error (.blockContext blockPath e)
        | .ok content =>
          match processLines fs dir visited ls with
          | .error e => .error e
          | .ok rest => .ok ((trimChars content ++ ['\n']) ++ rest)
    | none =>
      if (durationParts l).isSome then processLines fs dir visited ls
      else
        match processLines fs dir visited ls with
        | .error e => .error e
        | .ok rest => .ok ((l ++ ['\n']) ++ rest)
termination_by (freeCount fs visited, lines.length + 1)
decreasing_by
  all_goals apply Prod.Lex.right
  all_goals simp

end

/-- Model of `compile`: canonicalize the root path, then recurse with an
empty visited set. -/
def compile (fs : FSModel) (path : Chars) : Except CompileError Chars :=
  match fs.canon path with
  | .error k => .error (.canonFailed path k)
  | .ok p => compileRec fs p []

/-- Strip the `with_context` wrappers to the originating error, the way
`anyhow`'s cause chain preserves it. -/
def rootCause : CompileError → CompileError
  | .blockContext _ e => rootCause e
  | e => e

/-! ## Command replay driver (`rec::async_main`, replay branch).

The child's stdout is abstracted as the list of chunks successive
`read(&mut buffer)` calls return; the end of the list is EOF (`Ok(0)`).
Writes of `format!("{}\necho '{}'\n", command, END_MARKER)` to the child's
stdin are not reflected in the chunk stream by the code — bash's stdin is a
pipe (`Stdio::piped()`), not a tty, so nothing echoes — and the code performs
no write-failure handling that any settled claim depends on. -/

/-- The completion sentinel `–––[END]–––`. -/
def END_MARKER : Chars := "–––[END]–––".data

/-- The read loop of one replayed command (lines 247–271 of
`src/rec/src/main.rs`): chunks are accumulated verbatim until one contains
`END_MARKER`, in which case everything before the marker's first occurrence
is kept and the loop breaks; EOF (end of the chunk list) also breaks the
loop.  Returns (accumulated output, whether the marker was seen, remaining
chunks). -/
def readLoop : List Chars → Chars × Bool × List Chars
  | [] => ([], false, [])
  | c :: cs =>
    match indexOfSub END_MARKER c with
    | some i => (c.take i, true, cs)
    | none =>
      let r := readLoop cs
      (c ++ r.1, r.2.1, r.2.2)

/-- One `Input`/`Output`/`Duration` record as emitted by the replay loop
(the duration field is timing, not modelled). -/
structure ReplayRecord where
  cmd : Chars
  output : Chars
deriving DecidableEq, Repr

/-- The replay command loop (lines 230–286): for each command in order the
command plus sentinel-echo is written to the shell, then the read loop runs
and one record is emitted with whatever it accumulated — whether the loop
ended on the sentinel or on EOF. -/
def replayCommands : List Chars → List Chars → List ReplayRecord
  | [], _ => []
  | c :: cs, stream =>
    let r := readLoop stream
    ⟨c, r.1⟩ :: replayCommands cs r.2.2

/-! ## Command extraction (lines 199–220 of `src/rec/src/main.rs`): the
loop that turns the compiled flattened lines into the command list. -/

/-- State-passing form of the extraction loop: `commandLines` is the
`command_lines` buffer, `isInput` the `is_input_command` flag, `commands`
the accumulator (in reverse). -/
def extractGo : List Chars → List Chars → Bool → List Chars → List Chars
  | [], _, _, commands => commands.reverse
  | l :: ls, commandLines, isInput, commands =>
    match check_statement l .input with
    | .yes => extractGo ls commandLines true commands
    | .no =>
      if isInput then extractGo ls [] false (joinLines commandLines :: commands)
      else extractGo ls [] false commands
    | .none =>
      if isInput then extractGo ls (commandLines ++ [l]) isInput commands
      else extractGo ls commandLines isInput commands

/-- The commands extracted from the flattened compiled stream. -/
def extract_commands (lines : List Chars) : List Chars :=
  extractGo lines [] false []

/-- One input/output section of a well-formed flattened stream. -/
structure RecSection where
  cmdLines : List Chars
  outLines : List Chars

def inputStmtLine : Chars := get_statement_line .input none

def outputStmtLine : Chars := get_statement_line .output none

/-- The lines a section contributes to the flattened stream. -/
def sectionLines (r : RecSection) : List Chars :=
  inputStmtLine :: r.cmdLines ++ outputStmtLine :: r.outLines

/-! ## Output finalizer (`rec::cleanup_file`, lines 470–521).

The raw transcript is the list of its lines; the finalizer produces the list
of chunks written to the temporary file (each content line regains its
`'\n'`; the fixed header chunk contains embedded newlines). -/

def OUTPUT_HEADER : Chars :=
  "You can use regex in the output sections.\nMore info here: https://github.com/manticoresoftware/clt#refine\n".data

def timeTakenLine (total : Nat) : Chars :=
  "Time taken for test: ".data ++ natDigits total ++ "ms\n".data

/-- The per-line pass of `cleanup_file`: blank lines are dropped, a
Duration statement line has its percentage recomputed from the total, any
other line is kept; a Duration line whose argument fails
`parse_duration_line` aborts the cleanup (`?`), modelled as `none`. -/
def processCleanup (total : Nat) : List Chars → Option (List Chars)
  | [] => some []
  | l :: ls =>
    if trimChars l = [] then processCleanup total ls
    else if check_statement l .duration = .yes then
      match parse_duration_line l with
      | none => none
      | some d =>
        (processCleanup total ls).map
          (fun r => (get_duration_line ⟨d.ms, recomputePct d.ms total⟩ ++ ['\n']) :: r)
    else
      (processCleanup total ls).map (fun r => (l ++ ['\n']) :: r)

/-- Lines 505–509 of `src/rec/src/main.rs`: pop the final element when its
trimmed lowercase form contains the substring `exit`. -/
def strip_trailing_exit (ls : List Chars) : List Chars :=
  match ls.getLast? with
  | some last =>
    if containsSub (toLowerChars (trimChars last)) "exit".data then ls.dropLast else ls
  | none => ls

/-- The whole of `cleanup_file` on the raw transcript lines: header and
time-taken elements are prepended, lines are processed, and the trailing
`exit`-containing element (if any) is removed.  The result is the list of
chunks written to the replacement file. -/
def cleanup_lines (lines : List Chars) (total : Nat) : Option (List Chars) :=
  (processCleanup total lines).map
    (fun content => strip_trailing_exit (OUTPUT_HEADER :: timeTakenLine total :: content))

/-- Observation: the sum of the percentages of all Duration statement lines
of a finalized transcript (each chunk is trimmed of its trailing newline
before parsing). -/
def sumDurationPercentages (ls : List Chars) : ℚ :=
  ((ls.filterMap (fun e => parse_duration_line (trimChars e))).map DurationRec.percentage).sum

/-! ## Exit-code taxonomy (`RecError::exit_code` and `main`,
lines 54–64 and 449–467 of `src/rec/src/main.rs`). -/

inductive RecError where
  | testExecutionFailed (msg : String)
  | compilationError (msg : String)
  | setupError (msg : String)
  | recordingError (msg : String)
  | validationError (msg : String)

def EXIT_SUCCESS : Nat := 0
def EXIT_TEST_EXECUTION_FAILED : Nat := 1
def EXIT_COMPILATION_ERROR : Nat := 2
def EXIT_SETUP_ERROR : Nat := 3
def EXIT_RECORDING_ERROR : Nat := 4
def EXIT_VALIDATION_ERROR : Nat := 5

def RecError.exit_code : RecError → Nat
  | .testExecutionFailed _ => EXIT_TEST_EXECUTION_FAILED
  | .compilationError _ => EXIT_COMPILATION_ERROR
  | .setupError _ => EXIT_SETUP_ERROR
  | .recordingError _ => EXIT_RECORDING_ERROR
  | .validationError _ => EXIT_VALIDATION_ERROR

/-- Outcome of `async_main` as `main` sees it: success, an error that
downcasts to `RecError`, or any other `anyhow::Error`. -/
inductive RunOutcome where
  | ok
  | recError (e : RecError)
  | otherError (msg : String)

/-- The exit code `main` passes to `std::process::exit`. -/
def processExitCode : RunOutcome → Nat
  | .ok => EXIT_SUCCESS
  | .recError e => e.exit_code
  | .otherError _ => EXIT_TEST_EXECUTION_FAILED

/-! ## Concrete file systems used by witnesses and counterexamples. -/

/-- A block statement line referencing `name`. -/
def blockLineTo (name : String) : Chars :=
  ("––– block: " ++ name ++ " –––").data

def cyclePathA : Chars := "/t/a.recb".data
def cyclePathB : Chars := "/t/b.recb".data

/-- Two block files referencing each other. -/
def fsCycle : FSModel where
  canon := fun p =>
    if p = cyclePathA then .ok cyclePathA
    else if p = cyclePathB then .ok cyclePathB
    else .error .notFound
  files := [(cyclePathA, [blockLineTo "b"]), (cyclePathB, [blockLineTo "a"])]

def rootRecPath : Chars := "/t/r.rec".data

/-- A root file referencing a block file that does not exist. -/
def fsMissing : FSModel where
  canon := fun p =>
    if p = rootRecPath then .ok rootRecPath else .error .notFound
  files := [(rootRecPath, ["echo hi".data, blockLineTo "missing"])]

def blockPathC : Chars := "/t/c.recb".data
def siblingPath1 : Chars := "/t/s1.recb".data
def siblingPath2 : Chars := "/t/s2.recb".data

/-- A root file referencing the same block twice, plus two sibling blocks
each referencing that block. -/
def fsDouble : FSModel where
  canon := fun p =>
    if p = rootRecPath then .ok rootRecPath
    else if p = blockPathC then .ok blockPathC
    else .error .notFound
  files := [(rootRecPath, [blockLineTo "c", blockLineTo "c"]), (blockPathC, ["hello".data])]

def fsSibling : FSModel where
  canon := fun p =>
    if p = rootRecPath then .ok rootRecPath
    else if p = blockPathC then .ok blockPathC
    else if p = siblingPath1 then .ok siblingPath1
    else if p = siblingPath2 then .ok siblingPath2
    else .error .notFound
  files := [(rootRecPath, [blockLineTo "s1", blockLineTo "s2"]),
            (siblingPath1, [blockLineTo "c"]),
            (siblingPath2, [blockLineTo "c"]),
            (blockPathC, ["hello".data])]

/-- Canonical-form side condition for the statement round trip: a present
argument must be nonempty, must not begin with `\s` whitespace (the
formatter writes exactly `: ` before it, and the parser's `\s*` would
absorb any further leading whitespace), and must stay on one line. -/
def validArg : Option Chars → Bool
  | Option.none => true
  | Option.some [] => false
  | Option.some (c :: t) => !isWsChar c && !(c :: t).contains '\n'

/-- Lines of a raw replay transcript with a single 1 ms command. -/
def rawLine1 : Chars := "––– input –––".data
def rawLine2 : Chars := "echo hi".data
def rawLine3 : Chars := "––– output –––".data
def rawLine4 : Chars := "hi".data

/-- The duration line the replay loop emits (placeholder percentage 0.0). -/
def durLine0 : Chars := "––– duration: 1ms (0.00%) –––".data

/-- The same duration line after finalization against a 10 ms total. -/
def durLine10 : Chars := "––– duration: 1ms (10.00%) –––".data

/-- A raw replay transcript with a single 1 ms command, finalized against a
total session duration of 10 ms. -/
def rawTranscriptC7 : List Chars :=
  [rawLine1, rawLine2, rawLine3, rawLine4, durLine0]

/-! ## Supporting lemmas -/

/-- Unfolding equation for `compileRec` with the termination bookkeeping
removed. -/
theorem compileRec_eq (fs : FSModel) (path : Chars) (visited : List Chars) :
    compileRec fs path visited =
      if path ∈ visited then .error (.circularDependency path)
      else
        match lookupFile fs path with
        | none => .error (.openFailed path)
        | some lines =>
          match processLines fs (dirOf path) (path :: visited) lines with
          | .error e => .error e
          | .ok r => .ok (trimChars r) := by
  rw [compileRec]
  by_cases h : path ∈ visited
  · simp [h]
  · simp only [dif_neg h, if_neg h]
    split
    · next heq => rw [heq]
    · next lines heq => rw [heq]

theorem readLoop_no_marker (stream : List Chars)
    (h : ∀ ch ∈ stream, indexOfSub END_MARKER ch = none) :
    readLoop stream = (stream.flatten, false, []) := by
  induction stream with
  | nil => simp [readLoop]
  | cons c cs ih =>
    have hc := h c (List.mem_cons_self c cs)
    have ihs := ih (fun ch hm => h ch (List.mem_cons_of_mem _ hm))
    simp [readLoop, hc, ihs]

theorem replayCommands_exhausted (cs : List Chars) :
    replayCommands cs [] = cs.map (fun c => ⟨c, []⟩) := by
  induction cs with
  | nil => simp [replayCommands]
  | cons c cs ih => simp [replayCommands, readLoop, ih]

theorem takeWhile_append_of {p : Char → Bool} {a : Chars} {b : Char} {t : Chars}
    (ha : ∀ c ∈ a, p c = true) (hb : p b = false) :
    (a ++ b :: t).takeWhile p = a := by
  induction a with
  | nil => simp [List.takeWhile_cons, hb]
  | cons x xs ih =>
    have hx := ha x (List.mem_cons_self x xs)
    simp only [List.cons_append, List.takeWhile_cons, hx, if_true]
    rw [ih (fun c hm => ha c (List.mem_cons_of_mem _ hm))]

theorem processCleanup_cons_keep (total : Nat) (l : Chars) (ls : List Chars)
    (h1 : ¬ trimChars l = []) (h2 : ¬ check_statement l .duration = .yes) :
    processCleanup total (l :: ls) =
      (processCleanup total ls).map (fun r => (l ++ ['\n']) :: r) := by
  simp only [processCleanup]
  rw [if_neg h1, if_neg h2]

theorem processCleanup_cons_duration (total : Nat) (l : Chars) (ls : List Chars) (d : DurationRec)
    (h1 : ¬ trimChars l = []) (h2 : check_statement l .duration = .yes)
    (h3 : parse_duration_line l = some d) :
    processCleanup total (l :: ls) =
      (processCleanup total ls).map
        (fun r => (get_duration_line ⟨d.ms, recomputePct d.ms total⟩ ++ ['\n']) :: r) := by
  simp only [processCleanup]
  rw [if_neg h1, if_pos h2, h3]

theorem parseDecimalQ_eq_of (p a b : Chars)
    (h1 : p.takeWhile (· ≠ '.') = a)
    (h2 : p.drop a.length = '.' :: b)
    (h3 : (b.any (· == '.')) = false)
    (h4 : (decide (a = []) && decide (b = [])) = false) :
    parseDecimalQ p = some ((charsToNat a : ℚ) + (charsToNat b : ℚ) / (10 : ℚ) ^ b.length) := by
  simp only [parseDecimalQ, h1, h2, h3, h4, Bool.false_eq_true, if_false]

theorem parse_duration_line_eq_of (l d p : Chars) (q : ℚ)
    (h1 : durationParts l = some (d, p))
    (h2 : d.all Char.isDigit = true)
    (h3 : parseDecimalQ p = some q) :
    parse_duration_line l = some ⟨charsToNat d, q⟩ := by
  simp only [parse_duration_line, h1, h2, h3, eq_self_iff_true, if_true]

theorem processLines_cons (fs : FSModel) (dir : Chars) (visited : List Chars)
    (l : Chars) (ls : List Chars) :
    processLines fs dir visited (l :: ls) =
      match blockLineRef l with
      | some name =>
        let blockPath := joinPath dir (withRecbExt name)
        match fs.canon blockPath with
        | .error IoKind.notFound => .error (.blockNotFound blockPath)
        | .error IoKind.otherIo => .error (.ioFailure blockPath)
        | .ok abs =>
          match compileRec fs abs visited with
          | .error e => .error (.blockContext blockPath e)
          | .ok content =>
            match processLines fs dir visited ls with
            | .error e => .error e
            | .ok rest => .ok ((trimChars content ++ ['\n']) ++ rest)
      | none =>
        if (durationParts l).isSome then processLines fs dir visited ls
        else
          match processLines fs dir visited ls with
          | .error e => .error e
          | .ok rest => .ok ((l ++ ['\n']) ++ rest) := by
  rw [processLines]

theorem processLines_block_notFound (fs : FSModel) (dir : Chars) (visited : List Chars)
    (l : Chars) (ls : List Chars) (name : Chars)
    (hbl : blockLineRef l = some name)
    (hcanon : fs.canon (joinPath dir (withRecbExt name)) = .error IoKind.notFound) :
    processLines fs dir visited (l :: ls) =
      .error (.blockNotFound (joinPath dir (withRecbExt name))) := by
  simp only [processLines_cons, hbl, hcanon]

theorem processLines_plain_step (fs : FSModel) (dir : Chars) (visited : List Chars)
    (l : Chars) (ls : List Chars)
    (hbl : blockLineRef l = none) (hdur : (durationParts l).isSome = false) :
    processLines fs dir visited (l :: ls) =
      match processLines fs dir visited ls with
      | .error e => .error e
      | .ok rest => .ok ((l ++ ['\n']) ++ rest) := by
  simp only [processLines_cons, hbl, hdur, Bool.false_eq_true, if_false]

theorem trimChars_eq_self {l : Chars}
    (h1 : ∀ c, l.head? = some c → c.isWhitespace = false)
    (h2 : ∀ c, l.getLast? = some c → c.isWhitespace = false) :
    trimChars l = l := by
  have step1 : l.dropWhile Char.isWhitespace = l := by
    cases l with
    | nil => rfl
    | cons c t => simp [List.dropWhile_cons, h1 c rfl]
  have step2 : l.reverse.dropWhile Char.isWhitespace = l.reverse := by
    cases hr : l.reverse with
    | nil => rfl
    | cons c t =>
      have : l.getLast? = some c := by
        rw [← List.head?_reverse, hr]; rfl
      simp [List.dropWhile_cons, h2 c this]
  unfold trimChars
  rw [step1, step2, List.reverse_reverse]

theorem check_inputStmtLine : check_statement inputStmtLine .input = .yes := by decide

theorem check_outputStmtLine : check_statement outputStmtLine .input = .no := by decide

theorem extractGo_cons (l : Chars) (ls : List Chars) (cl : List Chars) (isInput : Bool)
    (cs : List Chars) :
    extractGo (l :: ls) cl isInput cs =
      match check_statement l .input with
      | .yes => extractGo ls cl true cs
      | .no =>
        if isInput then extractGo ls [] false (joinLines cl :: cs)
        else extractGo ls [] false cs
      | .none =>
        if isInput then extractGo ls (cl ++ [l]) isInput cs
        else extractGo ls cl isInput cs := by
  rw [extractGo]

theorem extractGo_skip (ls : List Chars) (rest : List Chars) (cl : List Chars) (cs : List Chars)
    (h : ∀ l ∈ ls, check_statement l .input = .none) :
    extractGo (ls ++ rest) cl false cs = extractGo rest cl false cs := by
  induction ls with
  | nil => rfl
  | cons a t ih =>
    have ha := h a (List.mem_cons_self a t)
    rw [List.cons_append, extractGo_cons]
    simp only [ha, Bool.false_eq_true, if_false]
    exact ih (fun l hm => h l (List.mem_cons_of_mem _ hm))

theorem extractGo_accum (ls : List Chars) (rest : List Chars) (cl : List Chars) (cs : List Chars)
    (h : ∀ l ∈ ls, check_statement l .input = .none) :
    extractGo (ls ++ rest) cl true cs = extractGo rest (cl ++ ls) true cs := by
  induction ls generalizing cl with
  | nil => rw [List.nil_append, List.append_nil]
  | cons a t ih =>
    have ha := h a (List.mem_cons_self a t)
    rw [List.cons_append, extractGo_cons]
    simp only [ha, if_true]
    rw [ih (cl ++ [a]) (fun l hm => h l (List.mem_cons_of_mem _ hm)), ← List.append_cons]

theorem extractGo_sections (recs : List RecSection) (cs : List Chars)
    (hcmd : ∀ r ∈ recs, ∀ l ∈ r.cmdLines, check_statement l .input = .none)
    (hout : ∀ r ∈ recs, ∀ l ∈ r.outLines, check_statement l .input = .none) :
    extractGo (recs.map sectionLines).flatten [] false cs =
      cs.reverse ++ recs.map (fun r => joinLines r.cmdLines) := by
  induction recs generalizing cs with
  | nil => simp [extractGo]
  | cons r rs ih =>
    have hc := hcmd r (List.mem_cons_self r rs)
    have ho := hout r (List.mem_cons_self r rs)
    rw [List.map_cons, List.flatten_cons, sectionLines]
    simp only [List.cons_append, List.append_assoc]
    rw [extractGo_cons]
    simp only [check_inputStmtLine]
    rw [extractGo_accum r.cmdLines _ [] cs hc, List.nil_append, extractGo_cons]
    simp only [check_outputStmtLine, if_true]
    rw [extractGo_skip r.outLines _ _ _ ho]
    rw [ih _ (fun x hx => hcmd x (List.mem_cons_of_mem _ hx))
          (fun x hx => hout x (List.mem_cons_of_mem _ hx))]
    rw [List.reverse_cons, List.append_assoc, List.map_cons, List.singleton_append]

/-- Core of the statement round trip: parsing a canonical statement line
with name `N` and a well-formed argument recovers the statement and the
exact argument.  The line is written in the cons-normalized shape the
parser's list operations work over. -/
theorem parse_statement_shape (N : Chars) (s : Statement) (c : Char) (t : Chars)
    (hN1 : ∀ ch ∈ N, isStmtNameChar ch = true)
    (hN2 : ¬ N = [])
    (hN3 : statementFromName N = some s)
    (hw : isWsChar c = false) :
    parse_statement (stmtOpen ++ (N ++ (':' :: ' ' :: c :: (t ++ stmtClose)))) =
      some (s, some (c :: t)) := by
  have h1 : stmtOpen.isPrefixOf (stmtOpen ++ (N ++ (':' :: ' ' :: c :: (t ++ stmtClose)))) = true := by
    rw [List.isPrefixOf_iff_prefix]
    exact List.prefix_append _ _
  have htrim : trimChars (stmtOpen ++ (N ++ (':' :: ' ' :: c :: (t ++ stmtClose)))) =
      stmtOpen ++ (N ++ (':' :: ' ' :: c :: (t ++ stmtClose))) := by
    apply trimChars_eq_self
    · intro ch hch
      rw [show stmtOpen ++ (N ++ (':' :: ' ' :: c :: (t ++ stmtClose))) =
            '–' :: ("–– ".data ++ (N ++ (':' :: ' ' :: c :: (t ++ stmtClose)))) from rfl,
          List.head?_cons] at hch
      cases hch
      decide
    · intro ch hch
      rw [show stmtOpen ++ (N ++ (':' :: ' ' :: c :: (t ++ stmtClose))) =
            (stmtOpen ++ N ++ [':', ' ', c] ++ t) ++ stmtClose from by simp,
          List.getLast?_append_of_ne_nil _ (by decide : stmtClose ≠ []),
          show stmtClose.getLast? = some '–' from rfl] at hch
      cases hch
      decide
  have h2 : stmtClose.isSuffixOf
      (stmtOpen ++ (N ++ (':' :: ' ' :: c :: (t ++ stmtClose)))) = true := by
    rw [List.isSuffixOf_iff_suffix]
    have s0 : stmtClose <:+ t ++ stmtClose := List.suffix_append _ _
    have s1 := (s0.trans (List.suffix_cons c _)).trans (List.suffix_cons ' ' _)
    have s2 := (s1.trans (List.suffix_cons ':' _)).trans (List.suffix_append N _)
    exact s2.trans (List.suffix_append stmtOpen _)
  rw [parse_statement]
  rw [h1, htrim, h2]
  simp only [Bool.and_self, if_true]
  have hdrop : (stmtOpen ++ (N ++ (':' :: ' ' :: c :: (t ++ stmtClose)))).drop 4 =
      N ++ (':' :: ' ' :: c :: (t ++ stmtClose)) := by
    rw [show (4 : Nat) = stmtOpen.length from rfl, List.drop_left]
  rw [hdrop]
  have htake : (N ++ (':' :: ' ' :: c :: (t ++ stmtClose))).takeWhile isStmtNameChar = N :=
    takeWhile_append_of hN1 (by decide)
  rw [htake]
  have hdropn : (N ++ (':' :: ' ' :: c :: (t ++ stmtClose))).drop N.length =
      ':' :: ' ' :: c :: (t ++ stmtClose) := List.drop_left _ _
  rw [hdropn, if_neg hN2]
  simp only [hN3]
  have hne : ¬ (':' :: ' ' :: c :: (t ++ stmtClose)) = stmtClose := by
    intro h
    have h0 := congrArg List.head? h
    rw [List.head?_cons, show stmtClose.head? = some ' ' from rfl] at h0
    cases h0
  rw [if_neg hne]
  have hsuf2 : stmtClose.isSuffixOf (':' :: ' ' :: c :: (t ++ stmtClose)) = true := by
    rw [List.isSuffixOf_iff_suffix]
    have s0 : stmtClose <:+ t ++ stmtClose := List.suffix_append _ _
    exact ((s0.trans (List.suffix_cons c _)).trans (List.suffix_cons ' ' _)).trans
      (List.suffix_cons ':' _)
  rw [hsuf2]
  simp only [if_true]
  have hmid : (':' :: ' ' :: c :: (t ++ stmtClose)).take
      ((':' :: ' ' :: c :: (t ++ stmtClose)).length - 4) = ':' :: ' ' :: c :: t := by
    rw [show (':' :: ' ' :: c :: (t ++ stmtClose)) = (':' :: ' ' :: c :: t) ++ stmtClose from by simp]
    exact List.take_left' (by simp [stmtClose])
  rw [hmid]
  have hdw1 : (':' :: ' ' :: c :: t).dropWhile isWsChar = ':' :: ' ' :: c :: t := by
    rw [List.dropWhile_cons]
    simp only [show isWsChar ':' = false from rfl, Bool.false_eq_true, if_false]
  simp only [hdw1]
  have hdw2 : (' ' :: c :: t).dropWhile isWsChar = c :: t := by
    rw [List.dropWhile_cons]
    simp only [show isWsChar ' ' = true from rfl, if_true, List.dropWhile_cons, hw,
      Bool.false_eq_true, if_false]
  simp only [hdw2]
  rfl

/-! ## Claims -/

/-- Claim C8 (confirmed): the process exit code is a total function of the
outcome — 0 on success, 1/2/3/4/5 for the five `RecError` variants, and 1
for every failure not in the taxonomy. -/
theorem exit_code_taxonomy_total :
    processExitCode .ok = 0 ∧
    (∀ m, processExitCode (.recError (.testExecutionFailed m)) = 1) ∧
    (∀ m, processExitCode (.recError (.compilationError m)) = 2) ∧
    (∀ m, processExitCode (.recError (.setupError m)) = 3) ∧
    (∀ m, processExitCode (.recError (.recordingError m)) = 4) ∧
    (∀ m, processExitCode (.recError (.validationError m)) = 5) ∧
    (∀ m, processExitCode (.otherError m) = 1) :=
  ⟨rfl, fun _ => rfl, fun _ => rfl, fun _ => rfl, fun _ => rfl, fun _ => rfl, fun _ => rfl⟩

/-- Claim C1 (counterexample): when the child's output stream reaches EOF
before any sentinel is seen, the replay loop does NOT fail — it emits a
normal record whose output is everything accumulated so far.  Here the
stream ends after the chunk `partial` with no `–––[END]–––` in sight, yet
the driver produces the record (`ls`, `partial`) and returns normally. -/
theorem replay_eof_counterexample :
    replayCommands ["ls".data] ["partial".data] =
      [⟨"ls".data, "partial".data⟩] ∧
    (readLoop ["partial".data]).2.1 = false := by
  constructor
  · rfl
  · rfl

/-- Claim C1 (amended): if EOF occurs before the sentinel is observed, the
read loop terminates with the accumulated output, the driver emits a normal
record for the current command and proceeds to the remaining commands (which
then read empty output from the exhausted stream).  No `TestExecutionFailed`
condition arises from the read side. -/
theorem replay_eof_is_recorded_not_failed (c : Chars) (cs : List Chars)
    (stream : List Chars)
    (h : ∀ ch ∈ stream, indexOfSub END_MARKER ch = none) :
    replayCommands (c :: cs) stream =
      ⟨c, stream.flatten⟩ :: cs.map (fun c' => ⟨c', []⟩) := by
  simp [replayCommands, readLoop_no_marker stream h, replayCommands_exhausted]

theorem replay_eof_is_recorded_not_failed_witness :
    replayCommands (["echo hi".data] : List Chars) ["hi".data] =
      [⟨"echo hi".data, (["hi".data] : List Chars).flatten⟩] :=
  replay_eof_is_recorded_not_failed "echo hi".data [] ["hi".data] (by decide)

/-- Claim C2 (counterexample): no bytes are discarded before output
accumulation.  The driver writes `ls\necho '–––[END]–––'\n` (22 characters)
for the command `ls`; under the claim the first 22 bytes read back would be
discarded, so a stream carrying only `AB` before the sentinel would yield
empty output.  The code instead records `AB`. -/
theorem replay_no_discard_counterexample :
    replayCommands ["ls".data] ["AB".data ++ END_MARKER ++ "tail".data] =
      [⟨"ls".data, "AB".data⟩] ∧
    "AB".data ≠ ([] : Chars) := by
  constructor
  · rfl
  · decide

/-- Claim C2 (amended): the replay driver discards nothing: the output
accumulated for a command is always a literal prefix of the byte stream it
read (cut at the sentinel's first occurrence or at EOF).  Any echoed bytes,
had the shell echoed, would be accumulated, not skipped. -/
theorem replay_output_is_stream_prefix_no_discard (stream : List Chars) :
    ∃ rest, stream.flatten = (readLoop stream).1 ++ rest := by
  induction stream with
  | nil => exact ⟨[], rfl⟩
  | cons c cs ih =>
    cases h : indexOfSub END_MARKER c with
    | some i =>
      refine ⟨c.drop i ++ cs.flatten, ?_⟩
      simp only [readLoop, h, List.flatten_cons]
      rw [← List.append_assoc, List.take_append_drop]
    | none =>
      obtain ⟨rest, hr⟩ := ih
      refine ⟨rest, ?_⟩
      simp [readLoop, h, hr, List.append_assoc]

/-- Claim C3 (counterexample): an Input section at the very end of the
flattened stream, with no following statement marker, yields NO command:
the extraction loop only flushes the pending command buffer when a
non-Input statement line arrives, and the loop ends with the buffer
unflushed.  The claim says this stream yields exactly one command,
`echo hi`; the code yields none. -/
theorem extract_trailing_input_counterexample :
    extract_commands [inputStmtLine, "echo hi".data] = [] ∧
    ([] : List Chars) ≠ ["echo hi".data] := by
  constructor
  · rfl
  · decide

/-- Claim C3 (amended): for a flattened stream made of a description
followed by Input sections each terminated by a following statement line
(here the Output marker, as the replay loop's streams are), the commands
sent to the shell are exactly the newline-joined Input section bodies, in
original order — one command per terminated Input section.  An Input
section at the very end of the stream with no following statement line is
dropped (see the counterexample). -/
theorem extract_commands_of_terminated_sections (desc : List Chars) (recs : List RecSection)
    (hdesc : ∀ l ∈ desc, check_statement l .input = .none)
    (hcmd : ∀ r ∈ recs, ∀ l ∈ r.cmdLines, check_statement l .input = .none)
    (hout : ∀ r ∈ recs, ∀ l ∈ r.outLines, check_statement l .input = .none) :
    extract_commands (desc ++ (recs.map sectionLines).flatten) =
      recs.map (fun r => joinLines r.cmdLines) := by
  rw [extract_commands, extractGo_skip desc _ [] [] hdesc,
      extractGo_sections recs [] hcmd hout, List.reverse_nil, List.nil_append]

theorem extract_commands_of_terminated_sections_witness :
    extract_commands (["hello".data] ++
        (([⟨["echo a".data], ["a".data]⟩] : List RecSection).map sectionLines).flatten) =
      ([⟨["echo a".data], ["a".data]⟩] : List RecSection).map (fun r => joinLines r.cmdLines) :=
  extract_commands_of_terminated_sections ["hello".data] [⟨["echo a".data], ["a".data]⟩]
    (by decide) (by decide) (by decide)

/-- Claim C6 (counterexample): the finalizer's last-line removal is a
case-insensitive substring test for `exit`, not an equality test: a
transcript whose last non-blank line is `exited` — which is not the line
`exit` — still loses that line. -/
theorem strip_trailing_exit_counterexample :
    cleanup_lines ["hello".data, "exited".data] 5 =
      some [OUTPUT_HEADER, timeTakenLine 5, "hello\n".data] ∧
    trimChars "exited".data ≠ "exit".data := by
  constructor
  · rfl
  · decide

/-- Claim C6 (amended): the Output Finalizer removes the final element
exactly when its trimmed, lowercased text CONTAINS the substring `exit`
(so the exact line `exit` is removed, but so is any other final line
containing `exit`, such as `exited`). -/
theorem strip_trailing_exit_iff_contains (ls : List Chars) (l : Chars) :
    strip_trailing_exit (ls ++ [l]) =
      if containsSub (toLowerChars (trimChars l)) "exit".data then ls else ls ++ [l] := by
  by_cases h : containsSub (toLowerChars (trimChars l)) "exit".data <;>
    simp [strip_trailing_exit, List.getLast?_concat, List.dropLast_concat, h]

theorem c7aux_parse0 : parse_duration_line durLine0 = some ⟨1, 0⟩ := by
  have h := parse_duration_line_eq_of durLine0 "1".data "0.00".data 0
    (by decide) (by decide)
    (by
      have h0 := parseDecimalQ_eq_of "0.00".data "0".data "00".data
        (by decide) (by decide) (by decide) (by decide)
      rw [h0]
      have hc1 : charsToNat "0".data = 0 := by decide
      have hc2 : charsToNat "00".data = 0 := by decide
      have hl : ("00".data).length = 2 := by decide
      rw [hc1, hc2, hl]
      norm_num)
  rw [h]
  have hc : charsToNat "1".data = 1 := by decide
  rw [hc]

theorem c7aux_pct : recomputePct 1 10 = 10 := by norm_num [recomputePct]

theorem c7aux_round : roundHalfEven ((10 : ℚ) * 100) = 1000 := by
  norm_num [roundHalfEven]

theorem c7aux_fmt : fmt2 (recomputePct 1 10) = "10.00".data := by
  rw [c7aux_pct]
  simp only [fmt2, c7aux_round]
  decide

theorem c7aux_line : get_duration_line ⟨1, recomputePct 1 10⟩ = durLine10 := by
  simp only [get_duration_line, duration_arg, c7aux_fmt]
  decide

theorem c7aux_proc : processCleanup 10 rawTranscriptC7 =
    some [rawLine1 ++ ['\n'], rawLine2 ++ ['\n'], rawLine3 ++ ['\n'], rawLine4 ++ ['\n'],
          durLine10 ++ ['\n']] := by
  show processCleanup 10 (rawLine1 :: rawLine2 :: rawLine3 :: rawLine4 :: durLine0 :: []) = _
  rw [processCleanup_cons_keep 10 rawLine1 _ (by decide) (by decide),
      processCleanup_cons_keep 10 rawLine2 _ (by decide) (by decide),
      processCleanup_cons_keep 10 rawLine3 _ (by decide) (by decide),
      processCleanup_cons_keep 10 rawLine4 _ (by decide) (by decide),
      processCleanup_cons_duration 10 durLine0 [] ⟨1, 0⟩ (by decide) (by decide) c7aux_parse0]
  simp only [processCleanup, Option.map_some']
  simp only [c7aux_line]

theorem c7aux_clean : cleanup_lines rawTranscriptC7 10 =
    some [OUTPUT_HEADER, timeTakenLine 10, rawLine1 ++ ['\n'], rawLine2 ++ ['\n'],
          rawLine3 ++ ['\n'], rawLine4 ++ ['\n'], durLine10 ++ ['\n']] := by
  rw [cleanup_lines, c7aux_proc]
  simp only [Option.map_some']
  decide

theorem c7aux_parse10 : parse_duration_line (trimChars (durLine10 ++ ['\n'])) = some ⟨1, 10⟩ := by
  have htr : trimChars (durLine10 ++ ['\n']) = durLine10 := by decide
  rw [htr]
  have h := parse_duration_line_eq_of durLine10 "1".data "10.00".data 10
    (by decide) (by decide)
    (by
      have h0 := parseDecimalQ_eq_of "10.00".data "10".data "00".data
        (by decide) (by decide) (by decide) (by decide)
      rw [h0]
      have hc1 : charsToNat "10".data = 10 := by decide
      have hc2 : charsToNat "00".data = 0 := by decide
      have hl : ("00".data).length = 2 := by decide
      rw [hc1, hc2, hl]
      norm_num)
  rw [h]
  have hc : charsToNat "1".data = 1 := by decide
  rw [hc]

theorem c7aux_sum : sumDurationPercentages
    [OUTPUT_HEADER, timeTakenLine 10, rawLine1 ++ ['\n'], rawLine2 ++ ['\n'],
     rawLine3 ++ ['\n'], rawLine4 ++ ['\n'], durLine10 ++ ['\n']] = 10 := by
  have hn1 : parse_duration_line (trimChars OUTPUT_HEADER) = none := by decide
  have hn2 : parse_duration_line (trimChars (timeTakenLine 10)) = none := by decide
  have hn3 : parse_duration_line (trimChars (rawLine1 ++ ['\n'])) = none := by decide
  have hn4 : parse_duration_line (trimChars (rawLine2 ++ ['\n'])) = none := by decide
  have hn5 : parse_duration_line (trimChars (rawLine3 ++ ['\n'])) = none := by decide
  have hn6 : parse_duration_line (trimChars (rawLine4 ++ ['\n'])) = none := by decide
  simp only [sumDurationPercentages, List.filterMap_cons, hn1, hn2, hn3, hn4, hn5, hn6,
    c7aux_parse10, List.filterMap_nil, List.map_cons, List.map_nil, List.sum_cons,
    List.sum_nil]
  norm_num

/-- Claim C7 (counterexample): the sum of Duration percentages after
finalization is NOT within rounding tolerance of 100% in general: a
completed session records per-command time only, while the total covers the
whole run (startup, inter-command delays, teardown — e.g. the configured
inter-command sleep happens inside the session total but outside every
command's duration).  Finalizing a transcript with one 1 ms command against
a 10 ms session total yields a single percentage of 10%, nowhere near
100%. -/
theorem duration_percentage_sum_counterexample :
    (cleanup_lines rawTranscriptC7 10).isSome = true ∧
    sumDurationPercentages ((cleanup_lines rawTranscriptC7 10).getD []) = 10 ∧
    ¬ |(10 : ℚ) - 100| ≤ 1 := by
  refine ⟨?_, ?_, by norm_num⟩
  · rw [c7aux_clean]
    rfl
  · rw [c7aux_clean, Option.getD_some]
    exact c7aux_sum

/-- Claim C7 (amended): each Duration percentage is rewritten to
`recordedMs / totalMs * 100` (two-decimal formatting aside, modelled exactly
over `ℚ`), so the percentages sum to `(sum of recorded ms) / totalMs * 100`
— which is close to 100% only when the commands' recorded milliseconds
account for essentially the whole session total. -/
theorem duration_percentage_sum_formula (ds : List Nat) (total : Nat) :
    (ds.map (fun m => recomputePct m total)).sum =
      ((ds.sum : ℚ) / (total : ℚ)) * 100 := by
  induction ds with
  | nil => simp [recomputePct]
  | cons d t ih =>
    simp only [List.map_cons, List.sum_cons, ih]
    rw [recomputePct, Nat.cast_add, add_div, add_mul]

/-- Claim C4 (amended): formatting the result of parsing reproduces `L`
exactly for well-formed statement lines in canonical form — lowercase
statement name, argument (when present) introduced by exactly `: ` and not
itself beginning with whitespace.  (For other well-formed lines — uppercase
names, extra whitespace around the colon — parsing succeeds but formatting
yields the canonical form, not `L`; see the counterexample.) -/
theorem format_parse_roundtrip_canonical (s : Statement) (a : Option Chars) (h : validArg a = true) :
    (parse_statement (get_statement_line s a)).map (fun p => get_statement_line p.1 p.2) =
      some (get_statement_line s a) := by
  have hp : parse_statement (get_statement_line s a) = some (s, a) := by
    cases a with
    | none => cases s <;> decide
    | some arg =>
      cases arg with
      | nil => simp [validArg] at h
      | cons c t =>
        have hw : isWsChar c = false := by
          cases hb : isWsChar c with
          | false => rfl
          | true => simp [validArg, hb] at h
        have hL : get_statement_line s (some (c :: t)) =
            stmtOpen ++ (statementName s ++ (':' :: ' ' :: c :: (t ++ stmtClose))) := by
          simp [get_statement_line, List.cons_append, List.append_assoc]
        rw [hL]
        exact parse_statement_shape (statementName s) s c t
          (by cases s <;> decide) (by cases s <;> decide) (by cases s <;> decide) hw
  rw [hp]
  rfl

theorem format_parse_roundtrip_canonical_witness :
    (parse_statement (get_statement_line .output (some "checker".data))).map
        (fun p => get_statement_line p.1 p.2) =
      some (get_statement_line .output (some "checker".data)) :=
  format_parse_roundtrip_canonical .output (some "checker".data) (by decide)

/-- Claim C4 (counterexample): `––– INPUT –––` is a well-formed statement
line under the claim's case-insensitive reading and parses successfully,
but formatting the parse result produces the lowercase canonical line
`––– input –––`, not the original: the round trip fails. -/
theorem roundtrip_uppercase_counterexample :
    parse_statement "––– INPUT –––".data = some (.input, none) ∧
    get_statement_line .input none ≠ "––– INPUT –––".data := by
  constructor
  · rfl
  · decide

/-- Claim C5 (confirmed): re-entering an already-visited canonical path on
the current expansion path fails with a circular-dependency error naming
that path (first conjunct — and `compileRec` is a total function, so every
compilation terminates); in particular two block files referencing each
other compile to an error whose root cause is `CircularDependency` naming
the re-entered canonical path (second and third conjuncts). -/
theorem compile_cycle_detection :
    (∀ (fs : FSModel) (path : Chars) (visited : List Chars), path ∈ visited →
      compileRec fs path visited = .error (.circularDependency path)) ∧
    compile fsCycle cyclePathA =
      .error (.blockContext cyclePathB (.blockContext cyclePathA
        (.circularDependency cyclePathA))) ∧
    rootCause (.blockContext cyclePathB (.blockContext cyclePathA
      (.circularDependency cyclePathA))) = .circularDependency cyclePathA := by
  refine ⟨?_, ?_, rfl⟩
  · intro fs path visited h
    rw [compileRec_eq, if_pos h]
  · simp +decide [compile, compileRec_eq, processLines, fsCycle, lookupFile, List.lookup,
      cyclePathA, cyclePathB, blockLineTo, blockLineRef, withRecbExt, joinPath, dirOf,
      durationParts, trimChars, stmtClose, blockOpen, durationOpen]

theorem compile_cycle_detection_witness :
    compileRec fsCycle cyclePathA [cyclePathA] = .error (.circularDependency cyclePathA) :=
  compile_cycle_detection.1 fsCycle cyclePathA [cyclePathA] (by decide)

/-- Claim C9 (confirmed): a Block statement whose referenced block file
(the referencing file's directory joined with the block name plus the
`.recb` extension) fails canonicalization with a NotFound error makes
compilation fail with `blockNotFound` naming that joined path (first
conjunct: in general, after any number of preceding plain lines; second
conjunct: end to end through `compile` on a concrete file system), and
this error is a constructor distinct from a generic I/O failure (third
conjunct). -/
theorem compile_block_not_found :
    (∀ (fs : FSModel) (dir : Chars) (visited : List Chars) (pre : List Chars) (l : Chars)
        (ls : List Chars) (name : Chars),
      (∀ l' ∈ pre, blockLineRef l' = none ∧ (durationParts l').isSome = false) →
      blockLineRef l = some name →
      fs.canon (joinPath dir (withRecbExt name)) = .error IoKind.notFound →
      processLines fs dir visited (pre ++ l :: ls) =
        .error (.blockNotFound (joinPath dir (withRecbExt name)))) ∧
    compile fsMissing rootRecPath = .error (.blockNotFound "/t/missing.recb".data) ∧
    (∀ p q, CompileError.blockNotFound p ≠ CompileError.ioFailure q) := by
  refine ⟨?_, ?_, fun p q h => by cases h⟩
  · intro fs dir visited pre l ls name hpre hbl hcanon
    induction pre with
    | nil =>
      rw [List.nil_append]
      exact processLines_block_notFound fs dir visited l ls name hbl hcanon
    | cons a pre' ih =>
      have ha := hpre a (List.mem_cons_self a pre')
      have hrest := ih (fun x hx => hpre x (List.mem_cons_of_mem _ hx))
      rw [List.cons_append, processLines_plain_step fs dir visited a _ ha.1 ha.2, hrest]
  · simp +decide [compile, compileRec_eq, processLines, fsMissing, lookupFile, List.lookup,
      rootRecPath, blockLineTo, blockLineRef, withRecbExt, joinPath, dirOf,
      durationParts, trimChars, stmtClose, blockOpen, durationOpen]

theorem compile_block_not_found_witness :
    processLines fsMissing "/t".data [rootRecPath]
      (["echo hi".data] ++ blockLineTo "missing" :: []) =
      .error (.blockNotFound (joinPath "/t".data (withRecbExt "missing".data))) :=
  compile_block_not_found.1 fsMissing "/t".data [rootRecPath] ["echo hi".data]
    (blockLineTo "missing") [] "missing".data (by decide) (by decide) (by rfl)

/-- Claim C10 (confirmed): the circular-dependency check tracks only the
current expansion path (the visited set is cloned per branch and each
expansion leaves the caller's set unchanged), so one acyclic block may be
referenced twice from the same file, or from two sibling blocks, and is
expanded each time. -/
theorem repeated_block_reference_succeeds :
    compile fsDouble rootRecPath = .ok "hello\nhello".data ∧
    compile fsSibling rootRecPath = .ok "hello\nhello".data := by
  constructor
  · simp +decide [compile, compileRec_eq, processLines, fsDouble, lookupFile, List.lookup,
      rootRecPath, blockPathC, blockLineTo, blockLineRef, withRecbExt, joinPath, dirOf,
      durationParts, trimChars, stmtClose, blockOpen, durationOpen]
  · simp +decide [compile, compileRec_eq, processLines, fsSibling, lookupFile, List.lookup,
      rootRecPath, blockPathC, siblingPath1, siblingPath2, blockLineTo, blockLineRef,
      withRecbExt, joinPath, dirOf, durationParts, trimChars, stmtClose, blockOpen,
      durationOpen]

end Clt
